import Mathlib

/-!
# transfer.js: NeDB to MongoDB migration script

A shallow embedding of `src/transfer.js`.  The script is a single top-level
sequence: option checks, connection string assembly, `mongoClient.connect`,
`ndb.loadDatabase`, a `data.map` that issues one `insertOne` per document, and
a `Promise.all(...).then(...).catch(...)` that ends the process.

The values of the parsed options are JavaScript values, the libraries
(`commander`, `mongodb`, `nedb`) are the environment: what `connect`,
`loadDatabase`, `getAllData` and each `insertOne` answer, and the order in
which the `insertOne` callbacks fire, turn of the event loop by turn, are
inputs of the run, and so is the fresh `_id` the driver writes into a document
it is handed without one.  `process.exit` ends the run where it is called;
promise reactions (`then`, `catch`) run when the turn that settled the promise
ends.
-/

namespace Transfer

/-! ## JavaScript values of the parsed options -/

/-- The values an option of `program` can hold after `program.parse`:
`undefined` (option not given), `true` (flag given without a value), a string,
or for `--mongodb-port` the result of `parseInt`: an integer below `10^21` in
magnitude, which JavaScript prints in decimal (`num`); a number of magnitude
`10^21` or more or an infinity, kept with the text JavaScript prints for it,
such as `1e+23` or `Infinity` (`large`); or `NaN`. -/
inductive JSVal where
  | undefined
  | bool (b : Bool)
  | str (s : String)
  | num (n : Int) (decimal : n.natAbs < 10 ^ 21)
  | large (text : String)
  | nan
  deriving DecidableEq, Repr

namespace JSVal

/-- JavaScript truthiness, the test behind `if (x)`, `!x` and `x ? a : b`. -/
def truthy : JSVal → Bool
  | undefined => false
  | bool b => b
  | str s => s != ""
  | num n _ => n != 0
  | large _ => true
  | nan => false

/-- String conversion of a value inside a template literal or under `+=` on a
string. -/
def toStr : JSVal → String
  | undefined => "undefined"
  | bool true => "true"
  | bool false => "false"
  | str s => s
  | num n _ => toString n
  | large text => text
  | nan => "NaN"

/-- Strict equality `v === s` with a string literal `s`. -/
def strictEqStr (v : JSVal) (s : String) : Bool :=
  match v with
  | str t => t == s
  | _ => false

end JSVal

/-- The option values of `program` after `program.parse(process.argv)`. -/
structure Program where
  mongodbHost : JSVal := .str "localhost"
  mongodbUsername : JSVal := .undefined
  mongodbPassword : JSVal := .undefined
  mongodbPort : JSVal := .undefined
  mongodbDbname : JSVal := .undefined
  mongodbCollection : JSVal := .undefined
  nedbDatafile : JSVal := .undefined
  keepIds : JSVal := .undefined
  deriving DecidableEq, Repr

/-! ## Documents -/

/-- A document: the own properties of a JavaScript object, field name and value. -/
abbrev Doc (V : Type) := List (String × V)

/-- Property read `doc[k]`; `none` stands for an absent field. -/
def Doc.get {V : Type} (d : Doc V) (k : String) : Option V :=
  (d.find? (fun p => p.1 == k)).map Prod.snd

/-- The statement `delete doc._id`. -/
def deleteId {V : Type} (d : Doc V) : Doc V :=
  d.filter (fun p => p.1 != "_id")

/-- What `collection.insertOne` does, before it returns, to the object it is
handed: the mongodb driver gives a document that has no `_id` a fresh one,
`oid`, as its last field, and leaves a document that has one as it is (the
script sets no `forceServerObjectId`). -/
def assignId {V : Type} (oid : V) (d : Doc V) : Doc V :=
  if (Doc.get d "_id").isNone then d ++ [("_id", oid)] else d

/-! ## Connection string, lines 66-85 -/

/-- Line 66: `program.keepIds = program.keepIds === 'true'`. -/
def keepIdsFlag (p : Program) : Bool :=
  p.keepIds.strictEqStr "true"

/-- Lines 68-77: the variable `auth`. -/
def auth (p : Program) : String :=
  let a := ""
  if p.mongodbUsername.truthy then
    let a := a ++ p.mongodbUsername.toStr
    let a := if p.mongodbPassword.truthy then a ++ (":" ++ p.mongodbPassword.toStr) else a
    a ++ "@"
  else a

/-- Line 79: the constant `protocol`. -/
def protocol (p : Program) : String :=
  if p.mongodbPort.truthy then "mongodb:" else "mongodb+srv:"

/-- Lines 80-85: the variable `mongoUrl` as passed to `new MongoClient`. -/
def mongoUrl (p : Program) : String :=
  let url := protocol p ++ "//" ++ auth p ++ p.mongodbHost.toStr
  let url := if p.mongodbPort.truthy then url ++ (":" ++ p.mongodbPort.toStr) else url
  url ++ ("/" ++ p.mongodbDbname.toStr)

/-! ## Effects and environment -/

/-- What the process does to the outside world, in order. -/
inductive Event (V : Type) where
  | log (s : String)
  | logErr (e : String)
  | write (s : String)
  | newClient (url : String)
  | connect
  | db (name : JSVal)
  | collection (name : JSVal)
  | loadDatabase (path : JSVal)
  | insertOne (i : Nat) (doc : Doc V)
  | exit (code : Nat)
  deriving DecidableEq, Repr

/-- The answers of the libraries during one run.  The library calls themselves
return normally; their results arrive through the callbacks. -/
structure Env (V : Type) where
  /-- The `err` handed to the `connect` callback. -/
  connectErr : Option String := none
  /-- The `err` handed to the `loadDatabase` callback. -/
  loadErr : Option String := none
  /-- The array `ndb.getAllData()` returns. -/
  data : List (Doc V) := []
  /-- The `err` handed to the callback of the `insertOne` issued for `data[i]`. -/
  insertErr : Nat → Option String := fun _ => none
  /-- The fresh `_id` the driver has at hand for the `insertOne` issued for
  `data[i]`, written into the document when it comes without one. -/
  objectId : Nat → V
  /-- The `insertOne` callbacks in the order they fire, grouped by the turn of
  the event loop in which the driver calls them. -/
  order : List (List Nat) := []

/-- The process state: output so far, exit code once `process.exit` ran, the
documents of `data` as they are in memory, the inserts whose promise is
fulfilled, and the inserts whose promise is rejected, each with its error. -/
structure St (V : Type) where
  out : List (Event V) := []
  exit : Option Nat := none
  heap : List (Doc V) := []
  resolved : List Nat := []
  rejected : List (Nat × String) := []

/-! ## The insert pass, lines 132-157 -/

/-- Lines 133-145, the `data.map` callback applied from index `i` on: writes a
dot, deletes `_id` in place unless `keepIds`, and hands the same object to
`collection.insertOne`, which writes a fresh `_id` into it when it has none.
Returns the events, each `insertOne` with the document as it is at the call,
and the documents as they are in memory afterwards. -/
def fanOut {V : Type} (keepIds : Bool) (objectId : Nat → V) :
    Nat → List (Doc V) → List (Event V) × List (Doc V)
  | _, [] => ([], [])
  | i, doc :: rest =>
    let doc := if !keepIds then deleteId doc else doc
    let r := fanOut keepIds objectId (i + 1) rest
    (Event.write "." :: Event.insertOne i doc :: r.1, assignId (objectId i) doc :: r.2)

/-- Lines 140-143: the callback of the `insertOne` for `data[i]` fires and
settles the promise of that insert, `reject(err)` or `resolve()`.  An index
with no pending insert has no callback. -/
def fire {V : Type} (n : Nat) (insertErr : Nat → Option String) (s : St V) (i : Nat) : St V :=
  if n ≤ i ∨ i ∈ s.resolved ∨ i ∈ s.rejected.map Prod.fst then s
  else
    match insertErr i with
    | some err => { s with rejected := s.rejected ++ [(i, err)] }
    | none => { s with resolved := s.resolved ++ [i] }

/-- The `Promise.all` over `n` promises is fulfilled once each of them is. -/
def allFulfilled (n : Nat) (resolved : List Nat) : Bool :=
  (List.range n).all (fun i => decide (i ∈ resolved))

/-- Lines 147-157, the promise reactions, run when a turn of the event loop
ends: the `Promise.all` is rejected with the first rejection among its
promises and the `catch` handler exits with 1; it is fulfilled when all its
promises are and the `then` handler exits with 0; otherwise the process goes
on waiting. -/
def reactions {V : Type} (n : Nat) (s : St V) : St V :=
  match s.rejected with
  | (_, err) :: _ =>
    { s with
      out := s.out ++ [Event.log "", Event.log "An error happened while inserting data",
                       Event.logErr err, Event.exit 1]
      exit := some 1 }
  | [] =>
    if allFulfilled n s.resolved then
      { s with
        out := s.out ++ [Event.log "", Event.log "Everything went fine", Event.exit 0]
        exit := some 0 }
    else s

/-- One turn of the event loop while the inserts are in flight: the callbacks
of the turn fire one after the other, then the promise reactions run.  Nothing
happens once the process has exited. -/
def turn {V : Type} (n : Nat) (insertErr : Nat → Option String) (s : St V)
    (callbacks : List Nat) : St V :=
  if s.exit.isSome then s
  else reactions n (callbacks.foldl (fire n insertErr) s)

/-! ## The script -/

/-- Lines 106-158: the `loadDatabase` callback. -/
def onLoad {V : Type} (p : Program) (env : Env V) (out : List (Event V)) : St V :=
  match env.loadErr with
  | some err =>
    { out := out ++ [Event.log "Error while loading the data from the NeDB database",
                     Event.logErr err, Event.exit 1]
      exit := some 1 }
  | none =>
    let data := env.data
    if data.length = 0 then
      { out := out ++
          [Event.log ("The NeDB database at " ++ p.nedbDatafile.toStr ++
                      " contains no data, no work required"),
           Event.log "You should probably check the NeDB datafile path though!",
           Event.exit 0]
        exit := some 0
        heap := data }
    else
      let out := out ++
        [Event.log ("Loaded data from the NeDB database at " ++ p.nedbDatafile.toStr ++
                    ", " ++ toString data.length ++ " documents"),
         Event.log "Inserting documents (every dot represents one document) ..."]
      let r := fanOut (keepIdsFlag p) env.objectId 0 data
      env.order.foldl (turn data.length env.insertErr) { out := out ++ r.1, heap := r.2 }

/-- Lines 93-159: the `connect` callback. -/
def onConnect {V : Type} (p : Program) (env : Env V) (out : List (Event V)) : St V :=
  match env.connectErr with
  | some err =>
    { out := out ++ [Event.log "Couldn\x27t connect to the Mongo database",
                     Event.logErr err, Event.exit 1]
      exit := some 1 }
  | none =>
    onLoad p env (out ++ [Event.log "Connected", Event.db p.mongodbDbname,
                          Event.collection p.mongodbCollection,
                          Event.loadDatabase p.nedbDatafile])

/-- Lines 44-93: the top level of the script after `program.parse`. -/
def run {V : Type} (p : Program) (env : Env V) : St V :=
  if !p.mongodbDbname.truthy then
    { out := [Event.log "No MongoDB database name provided, can\x27t proceed.", Event.exit 1]
      exit := some 1 }
  else if !p.mongodbCollection.truthy then
    { out := [Event.log "No MongoDB collection name provided, can\x27t proceed.", Event.exit 1]
      exit := some 1 }
  else if !p.nedbDatafile.truthy then
    { out := [Event.log "No NeDB datafile path provided, can\x27t proceed", Event.exit 1]
      exit := some 1 }
  else if !p.keepIds.truthy then
    { out := [Event.log "The --keep-ids option wasn\x27t used or not explicitely initialized.",
              Event.exit 1]
      exit := some 1 }
  else
    let url := mongoUrl p
    onConnect p env [Event.newClient url, Event.log ("Connecting to " ++ url), Event.connect]

/-! ## Observations on a run -/

/-- The four required options are present. -/
def valid (p : Program) : Bool :=
  p.mongodbDbname.truthy && p.mongodbCollection.truthy && p.nedbDatafile.truthy
    && p.keepIds.truthy

/-- Events that reach the target or the source. -/
def Event.touches {V : Type} : Event V → Bool
  | .newClient _ => true
  | .connect => true
  | .db _ => true
  | .collection _ => true
  | .loadDatabase _ => true
  | .insertOne _ _ => true
  | _ => false

/-- The `insertOne` calls of a trace, in the order they were issued. -/
def insertCalls {V : Type} : List (Event V) → List (Nat × Doc V)
  | [] => []
  | .insertOne i d :: rest => (i, d) :: insertCalls rest
  | _ :: rest => insertCalls rest

/-- The connection strings handed to `new MongoClient`. -/
def clientUrls {V : Type} : List (Event V) → List String
  | [] => []
  | .newClient u :: rest => u :: clientUrls rest
  | _ :: rest => clientUrls rest

/-- The inserts still awaiting their callback in state `s` of a pass over `n`
documents. -/
def inFlight {V : Type} (n : Nat) (s : St V) : List Nat :=
  (List.range n).filter
    (fun i => decide (i ∉ s.resolved) && decide (i ∉ s.rejected.map Prod.fst))

/-- The callback of every insert of a pass over `n` documents fires in some
turn of `order`. -/
def Complete (n : Nat) (order : List (List Nat)) : Prop :=
  ∀ i, i < n → i ∈ order.flatten

/-- What the `data.map` callback leaves of a document when it hands it to
`insertOne`. -/
def passed {V : Type} (keepIds : Bool) (doc : Doc V) : Doc V :=
  if !keepIds then deleteId doc else doc

/-- Some insert of the pass over `n` documents is answered with an error. -/
def anyRejected (n : Nat) (insertErr : Nat → Option String) : Bool :=
  (List.range n).any (fun i => (insertErr i).isSome)

/-- The output of a run that connected and loaded a non-empty `data`, up to
the start of the insert pass. -/
def preamble {V : Type} (p : Program) (env : Env V) : List (Event V) :=
  [Event.newClient (mongoUrl p), Event.log ("Connecting to " ++ mongoUrl p), Event.connect,
   Event.log "Connected", Event.db p.mongodbDbname, Event.collection p.mongodbCollection,
   Event.loadDatabase p.nedbDatafile,
   Event.log ("Loaded data from the NeDB database at " ++ p.nedbDatafile.toStr ++
              ", " ++ toString env.data.length ++ " documents"),
   Event.log "Inserting documents (every dot represents one document) ..."]

/-- The state in which the process waits for the `insertOne` callbacks. -/
def waiting {V : Type} (p : Program) (env : Env V) : St V :=
  { out := preamble p env ++ (fanOut (keepIdsFlag p) env.objectId 0 env.data).1
    heap := (fanOut (keepIdsFlag p) env.objectId 0 env.data).2 }

/-! ## Sample inputs -/

/-- The options `-d db -c c -n f.db -k false`. -/
def optsFalse : Program :=
  { mongodbDbname := .str "db", mongodbCollection := .str "c", nedbDatafile := .str "f.db",
    keepIds := .str "false" }

/-- The options `-d db -c c -n f.db -k true`. -/
def optsTrue : Program :=
  { optsFalse with keepIds := .str "true" }

/-- The three documents of the example in the specification. -/
def threeDocs : List (Doc Int) :=
  [[("_id", 1), ("a", 1)], [("_id", 2), ("a", 2)], [("_id", 3), ("a", 3)]]

/-- The fresh `_id` values of the driver in the sample runs, none of them an
`_id` of `threeDocs`. -/
def sampleIds (i : Nat) : Int :=
  5000 + i

/-- A source holding `threeDocs`, a target that accepts every insert, callbacks
firing in the order the inserts were issued. -/
def envThree : Env Int :=
  { data := threeDocs, order := [[0], [1], [2]], objectId := sampleIds }

/-- The options `-d db -c c -n f.db -k ""`: the value of `--keep-ids` is the
empty string. -/
def optsEmptyKeep : Program :=
  { optsFalse with keepIds := .str "" }

/-- The options `-d db -c c -n f.db -k false --mongodb-port 0`; `parseInt`
turns the port into the number 0. -/
def optsPortZero : Program :=
  { optsFalse with mongodbPort := .num 0 (by decide) }

/-- The options `-d db -c c -n f.db -k true -u ann -p pw --mongodb-port 27017`. -/
def optsFull : Program :=
  { optsTrue with
    mongodbUsername := .str "ann", mongodbPassword := .str "pw",
    mongodbPort := .num 27017 (by decide) }

/-- The options `-d db -c c -n f.db -k`, the bare flag: `keepIds` is `true`,
the boolean. -/
def optsBareKeep : Program :=
  { optsFalse with keepIds := .bool true }

/-- A source holding `threeDocs` and a target that rejects the insert of the
second document; the callbacks of the second and the first insert fire in one
turn, the callback of the third in a later one. -/
def envRejectSecond : Env Int :=
  { data := threeDocs, order := [[1, 0], [2]], objectId := sampleIds,
    insertErr := fun i => if i = 1 then some "E11000 duplicate key" else none }

/-- A source holding `threeDocs` and a target that rejects the insert of the
second document; the callback of the rejected insert fires first, in a turn of
its own. -/
def envRejectedFirst : Env Int :=
  { data := threeDocs, order := [[1], [0], [2]], objectId := sampleIds,
    insertErr := fun i => if i = 1 then some "E11000 duplicate key" else none }

/-! ## Unfolding the script -/

theorem run_of_valid {V : Type} (p : Program) (env : Env V) (h : valid p = true) :
    run p env = onConnect p env
      [Event.newClient (mongoUrl p), Event.log ("Connecting to " ++ mongoUrl p), Event.connect] := by
  simp only [valid, Bool.and_eq_true] at h
  obtain ⟨⟨⟨h1, h2⟩, h3⟩, h4⟩ := h
  simp [run, h1, h2, h3, h4]

theorem run_of_missing {V : Type} (p : Program) (env : Env V) (h : valid p = false) :
    (run p env).exit = some 1 ∧ (run p env).out.getLast? = some (Event.exit 1) ∧
      ∀ e ∈ (run p env).out, e.touches = false := by
  unfold run
  split_ifs with h1 h2 h3 h4
  · simp [Event.touches]
  · simp [Event.touches]
  · simp [Event.touches]
  · simp [Event.touches]
  · simp [valid] at h h1 h2 h3 h4
    simp [h1, h2, h3, h4] at h

theorem insertCalls_append {V : Type} (a b : List (Event V)) :
    insertCalls (a ++ b) = insertCalls a ++ insertCalls b := by
  induction a with
  | nil => rfl
  | cons e a ih => cases e <;> simp [insertCalls, ih]

theorem clientUrls_append {V : Type} (a b : List (Event V)) :
    clientUrls (a ++ b) = clientUrls a ++ clientUrls b := by
  induction a with
  | nil => rfl
  | cons e a ih => cases e <;> simp [clientUrls, ih]

theorem fanOut_heap_length {V : Type} (k : Bool) (oid : Nat → V) (data : List (Doc V))
    (i : Nat) : (fanOut k oid i data).2.length = data.length := by
  induction data generalizing i with
  | nil => rfl
  | cons d data ih => simp [fanOut, ih]

theorem fanOut_heap_get {V : Type} (k : Bool) (oid : Nat → V) (data : List (Doc V))
    (i j : Nat) :
    (fanOut k oid i data).2[j]? = (data[j]?).map (fun d => assignId (oid (i + j)) (passed k d)) := by
  induction data generalizing i j with
  | nil => rfl
  | cons d data ih =>
    cases j with
    | zero => simp [fanOut, passed]
    | succ j =>
      simp only [fanOut, List.getElem?_cons_succ, ih]
      rw [show i + 1 + j = i + (j + 1) by omega]

theorem fanOut_calls {V : Type} (k : Bool) (oid : Nat → V) (data : List (Doc V))
    (i : Nat) :
    insertCalls (fanOut k oid i data).1 = (data.map (passed k)).enumFrom i := by
  induction data generalizing i with
  | nil => rfl
  | cons d data ih => simp [fanOut, passed, insertCalls, ih, List.enumFrom]

theorem fanOut_urls {V : Type} (k : Bool) (oid : Nat → V) (data : List (Doc V))
    (i : Nat) :
    clientUrls (fanOut k oid i data).1 = [] := by
  induction data generalizing i with
  | nil => rfl
  | cons d data ih => simp [fanOut, clientUrls, ih]

/-! ## The callbacks of the inserts -/

theorem fire_cases {V : Type} (n : Nat) (ie : Nat → Option String) (s : St V) (i : Nat) :
    ((n ≤ i ∨ i ∈ s.resolved ∨ i ∈ s.rejected.map Prod.fst) ∧ fire n ie s i = s) ∨
    (∃ err, i < n ∧ i ∉ s.resolved ∧ i ∉ s.rejected.map Prod.fst ∧ ie i = some err ∧
      fire n ie s i = { s with rejected := s.rejected ++ [(i, err)] }) ∨
    (i < n ∧ i ∉ s.resolved ∧ i ∉ s.rejected.map Prod.fst ∧ ie i = none ∧
      fire n ie s i = { s with resolved := s.resolved ++ [i] }) := by
  by_cases h : n ≤ i ∨ i ∈ s.resolved ∨ i ∈ s.rejected.map Prod.fst
  · exact Or.inl ⟨h, by simp only [fire, if_pos h]⟩
  · have hi : i < n := by omega
    have h1 : i ∉ s.resolved := fun hm => h (Or.inr (Or.inl hm))
    have h2 : i ∉ s.rejected.map Prod.fst := fun hm => h (Or.inr (Or.inr hm))
    rcases he : ie i with _ | err
    · exact Or.inr (Or.inr ⟨hi, h1, h2, rfl, by simp only [fire, if_neg h, he]⟩)
    · exact Or.inr (Or.inl ⟨err, hi, h1, h2, rfl, by simp only [fire, if_neg h, he]⟩)

theorem fire_frame {V : Type} (n : Nat) (ie : Nat → Option String) (s : St V) (i : Nat) :
    (fire n ie s i).out = s.out ∧ (fire n ie s i).exit = s.exit ∧
      (fire n ie s i).heap = s.heap := by
  rcases fire_cases n ie s i with ⟨_, h⟩ | ⟨err, _, _, _, _, h⟩ | ⟨_, _, _, _, h⟩ <;>
    rw [h] <;> exact ⟨rfl, rfl, rfl⟩

theorem foldl_fire_frame {V : Type} (n : Nat) (ie : Nat → Option String) (l : List Nat)
    (s : St V) :
    (l.foldl (fire n ie) s).out = s.out ∧ (l.foldl (fire n ie) s).exit = s.exit ∧
      (l.foldl (fire n ie) s).heap = s.heap := by
  induction l generalizing s with
  | nil => exact ⟨rfl, rfl, rfl⟩
  | cons i l ih =>
    obtain ⟨h1, h2, h3⟩ := ih (fire n ie s i)
    obtain ⟨g1, g2, g3⟩ := fire_frame n ie s i
    exact ⟨h1.trans g1, h2.trans g2, h3.trans g3⟩

/-- The three ways the promise reactions can go. -/
theorem reactions_cases {V : Type} (n : Nat) (s : St V) :
    (∃ i err rest, s.rejected = (i, err) :: rest ∧
      reactions n s =
        { s with
          out := s.out ++ [Event.log "", Event.log "An error happened while inserting data",
                           Event.logErr err, Event.exit 1]
          exit := some 1 }) ∨
    (s.rejected = [] ∧ allFulfilled n s.resolved = true ∧
      reactions n s =
        { s with
          out := s.out ++ [Event.log "", Event.log "Everything went fine", Event.exit 0]
          exit := some 0 }) ∨
    (s.rejected = [] ∧ allFulfilled n s.resolved = false ∧ reactions n s = s) := by
  rcases hr : s.rejected with _ | ⟨⟨i, err⟩, rest⟩
  · rcases ha : allFulfilled n s.resolved with _ | _
    · exact Or.inr (Or.inr ⟨rfl, rfl, by simp [reactions, hr, ha]⟩)
    · exact Or.inr (Or.inl ⟨rfl, rfl, by simp [reactions, hr, ha]⟩)
  · exact Or.inl ⟨i, err, rest, rfl, by simp [reactions, hr]⟩

theorem reactions_frame {V : Type} (n : Nat) (s : St V) :
    (reactions n s).heap = s.heap ∧ (reactions n s).resolved = s.resolved ∧
      (reactions n s).rejected = s.rejected ∧
      insertCalls (reactions n s).out = insertCalls s.out ∧
      clientUrls (reactions n s).out = clientUrls s.out ∧
      ∀ e ∈ s.out, e ∈ (reactions n s).out := by
  rcases reactions_cases n s with ⟨i, err, rest, _, h⟩ | ⟨_, _, h⟩ | ⟨_, _, h⟩ <;>
    rw [h] <;>
    simp [insertCalls_append, clientUrls_append, insertCalls, clientUrls] <;>
    exact fun e he => Or.inl he

theorem turn_exited {V : Type} (n : Nat) (ie : Nat → Option String) (s : St V) (t : List Nat)
    (h : s.exit.isSome = true) : turn n ie s t = s := by
  simp [turn, h]

theorem turn_waiting {V : Type} (n : Nat) (ie : Nat → Option String) (s : St V) (t : List Nat)
    (h : s.exit = none) : turn n ie s t = reactions n (t.foldl (fire n ie) s) := by
  simp [turn, h]

theorem foldl_turn_exited {V : Type} (n : Nat) (ie : Nat → Option String)
    (l : List (List Nat)) (s : St V) (h : s.exit.isSome = true) :
    l.foldl (turn n ie) s = s := by
  induction l with
  | nil => rfl
  | cons t l ih => simp [List.foldl, turn_exited n ie s t h, ih]

theorem turn_frame {V : Type} (n : Nat) (ie : Nat → Option String) (s : St V) (t : List Nat) :
    (turn n ie s t).heap = s.heap ∧ insertCalls (turn n ie s t).out = insertCalls s.out ∧
      clientUrls (turn n ie s t).out = clientUrls s.out ∧
      ∀ e ∈ s.out, e ∈ (turn n ie s t).out := by
  by_cases hx : s.exit.isSome = true
  · rw [turn_exited n ie s t hx]
    exact ⟨rfl, rfl, rfl, fun _ he => he⟩
  · have hx : s.exit = none := by simpa using hx
    rw [turn_waiting n ie s t hx]
    obtain ⟨h1, _, _, h2, h3, h4⟩ := reactions_frame n (t.foldl (fire n ie) s)
    obtain ⟨g1, _, g3⟩ := foldl_fire_frame n ie t s
    rw [h1, h2, h3, g3, g1]
    exact ⟨rfl, rfl, rfl, fun e he => h4 e (g1 ▸ he)⟩

theorem foldl_turn_frame {V : Type} (n : Nat) (ie : Nat → Option String)
    (l : List (List Nat)) (s : St V) :
    (l.foldl (turn n ie) s).heap = s.heap ∧
      insertCalls (l.foldl (turn n ie) s).out = insertCalls s.out ∧
      clientUrls (l.foldl (turn n ie) s).out = clientUrls s.out ∧
      ∀ e ∈ s.out, e ∈ (l.foldl (turn n ie) s).out := by
  induction l generalizing s with
  | nil => exact ⟨rfl, rfl, rfl, fun _ he => he⟩
  | cons t l ih =>
    obtain ⟨h1, h2, h3, h4⟩ := ih (turn n ie s t)
    obtain ⟨g1, g2, g3, g4⟩ := turn_frame n ie s t
    exact ⟨h1.trans g1, h2.trans g2, h3.trans g3, fun e he => h4 e (g4 e he)⟩

/-! ## The outcome of the insert pass -/

theorem allFulfilled_iff (n : Nat) (r : List Nat) :
    allFulfilled n r = true ↔ ∀ i, i < n → i ∈ r := by
  simp [allFulfilled]

theorem anyRejected_iff (n : Nat) (ie : Nat → Option String) :
    anyRejected n ie = true ↔ ∃ i, i < n ∧ ie i ≠ none := by
  simp [anyRejected, Option.isSome_iff_ne_none]

/-- What a turn's callbacks keep and establish: fulfilled promises are of
accepted inserts, rejected promises of rejected inserts, a settled promise stays
settled, and every insert whose callback fired is settled. -/
theorem foldl_fire_inv {V : Type} (n : Nat) (ie : Nat → Option String) (l : List Nat)
    (s : St V) (h1 : ∀ i ∈ s.resolved, ie i = none)
    (h2 : ∀ x ∈ s.rejected, x.1 < n ∧ ie x.1 ≠ none) :
    (∀ i ∈ (l.foldl (fire n ie) s).resolved, ie i = none) ∧
      (∀ x ∈ (l.foldl (fire n ie) s).rejected, x.1 < n ∧ ie x.1 ≠ none) ∧
      (∀ i ∈ s.resolved, i ∈ (l.foldl (fire n ie) s).resolved) ∧
      (∀ i ∈ s.rejected.map Prod.fst, i ∈ (l.foldl (fire n ie) s).rejected.map Prod.fst) ∧
      (∀ i ∈ l, i < n → i ∈ (l.foldl (fire n ie) s).resolved ∨
        i ∈ (l.foldl (fire n ie) s).rejected.map Prod.fst) := by
  induction l generalizing s with
  | nil =>
    refine ⟨h1, h2, fun _ h => h, fun _ h => h, fun i hi => ?_⟩
    cases hi
  | cons a l ih =>
    simp only [List.foldl]
    rcases fire_cases n ie s a with ⟨hs, h⟩ | ⟨err, ha, _, _, he, h⟩ | ⟨ha, _, _, he, h⟩
    · rw [h]
      obtain ⟨g1, g2, g3, g4, g5⟩ := ih s h1 h2
      refine ⟨g1, g2, g3, g4, fun i hi hn => ?_⟩
      rcases List.mem_cons.mp hi with rfl | hi
      · rcases hs with hs | hs | hs
        · omega
        · exact Or.inl (g3 _ hs)
        · exact Or.inr (g4 _ hs)
      · exact g5 i hi hn
    · rw [h]
      have h2' : ∀ x ∈ s.rejected ++ [(a, err)], x.1 < n ∧ ie x.1 ≠ none := by
        intro x hx
        rcases List.mem_append.mp hx with hx | hx
        · exact h2 x hx
        · rw [List.mem_singleton.mp hx]
          exact ⟨ha, by simp [he]⟩
      obtain ⟨g1, g2, g3, g4, g5⟩ := ih { s with rejected := s.rejected ++ [(a, err)] } h1 h2'
      refine ⟨g1, g2, g3, fun i hi => g4 i (by simp at hi ⊢; exact Or.inl hi), fun i hi hn => ?_⟩
      rcases List.mem_cons.mp hi with rfl | hi
      · exact Or.inr (g4 _ (by simp))
      · exact g5 i hi hn
    · rw [h]
      have h1' : ∀ i ∈ s.resolved ++ [a], ie i = none := by
        intro i hi
        rcases List.mem_append.mp hi with hi | hi
        · exact h1 i hi
        · rw [List.mem_singleton.mp hi]
          exact he
      obtain ⟨g1, g2, g3, g4, g5⟩ := ih { s with resolved := s.resolved ++ [a] } h1' h2
      refine ⟨g1, g2, fun i hi => g3 i (List.mem_append.mpr (Or.inl hi)), g4, fun i hi hn => ?_⟩
      rcases List.mem_cons.mp hi with rfl | hi
      · exact Or.inl (g3 _ (by simp))
      · exact g5 i hi hn

theorem foldl_turn_exit {V : Type} (n : Nat) (ie : Nat → Option String)
    (l : List (List Nat)) (s : St V)
    (hinv : s.exit = none → s.rejected = [] ∧ (∀ i ∈ s.resolved, ie i = none) ∧
      allFulfilled n s.resolved = false ∧ ∀ i, i < n → i ∈ s.resolved ∨ i ∈ l.flatten)
    (hdone : ∀ c, s.exit = some c → c = if anyRejected n ie then 1 else 0) :
    (l.foldl (turn n ie) s).exit = some (if anyRejected n ie then 1 else 0) := by
  induction l generalizing s with
  | nil =>
    cases hx : s.exit with
    | some c =>
      rw [← hdone c hx]
      exact hx
    | none =>
      obtain ⟨_, _, h2, h3⟩ := hinv hx
      have : allFulfilled n s.resolved = true := by
        rw [allFulfilled_iff]
        intro i hi
        simpa using h3 i hi
      rw [this] at h2
      cases h2
  | cons t l ih =>
    simp only [List.foldl]
    cases hx : s.exit with
    | some c =>
      rw [turn_exited n ie s t (by simp [hx])]
      exact ih s (fun h => by simp [hx] at h) hdone
    | none =>
      obtain ⟨hrej, hacc, _, hcov⟩ := hinv hx
      rw [turn_waiting n ie s t hx]
      obtain ⟨g1, g2, g3, _, g5⟩ := foldl_fire_inv n ie t s hacc (by simp [hrej])
      obtain ⟨_, gx, _⟩ := foldl_fire_frame n ie t s
      apply ih
      · intro hx'
        rcases reactions_cases n (t.foldl (fire n ie) s) with ⟨i, err, rest, _, h⟩ |
          ⟨_, _, h⟩ | ⟨hr, ha, h⟩
        · rw [h] at hx'
          cases hx'
        · rw [h] at hx'
          cases hx'
        · rw [h]
          refine ⟨hr, g1, ha, fun j hj => ?_⟩
          rcases hcov j hj with hm | hm
          · exact Or.inl (g3 j hm)
          · rw [List.flatten_cons] at hm
            rcases List.mem_append.mp hm with hm | hm
            · rcases g5 j hm hj with hs | hs
              · exact Or.inl hs
              · rw [hr] at hs
                cases hs
            · exact Or.inr hm
      · intro c hc
        rcases reactions_cases n (t.foldl (fire n ie) s) with ⟨i, err, rest, hr, h⟩ |
          ⟨_, ha, h⟩ | ⟨_, _, h⟩
        · rw [h] at hc
          have hi := g2 (i, err) (by rw [hr]; exact List.mem_cons_self _ _)
          have hany : anyRejected n ie = true := (anyRejected_iff n ie).mpr ⟨i, hi.1, hi.2⟩
          simp at hc
          simp [hany, ← hc]
        · rw [h] at hc
          have hany : anyRejected n ie = false := by
            rw [Bool.eq_false_iff]
            intro hany
            obtain ⟨j, hj, hne⟩ := (anyRejected_iff n ie).mp hany
            exact hne (g1 j ((allFulfilled_iff n _).mp ha j hj))
          simp at hc
          simp [hany, ← hc]
        · rw [h, gx, hx] at hc
          cases hc

/-! ## The run up to the insert pass -/

theorem run_pass {V : Type} (p : Program) (env : Env V) (hv : valid p = true)
    (hc : env.connectErr = none) (hl : env.loadErr = none) (hd : env.data ≠ []) :
    run p env = env.order.foldl (turn env.data.length env.insertErr) (waiting p env) := by
  have hlen : env.data.length ≠ 0 := by
    intro h
    exact hd (List.length_eq_zero.mp h)
  rw [run_of_valid p env hv]
  simp [onConnect, onLoad, hc, hl, hlen, waiting, preamble]

theorem run_empty {V : Type} (p : Program) (env : Env V) (hv : valid p = true)
    (hc : env.connectErr = none) (hl : env.loadErr = none) (hd : env.data = []) :
    run p env =
      { out := [Event.newClient (mongoUrl p), Event.log ("Connecting to " ++ mongoUrl p),
                Event.connect, Event.log "Connected", Event.db p.mongodbDbname,
                Event.collection p.mongodbCollection, Event.loadDatabase p.nedbDatafile,
                Event.log ("The NeDB database at " ++ p.nedbDatafile.toStr ++
                           " contains no data, no work required"),
                Event.log "You should probably check the NeDB datafile path though!",
                Event.exit 0]
        exit := some 0
        heap := [] } := by
  rw [run_of_valid p env hv]
  simp [onConnect, onLoad, hc, hl, hd]

theorem run_connect_failed {V : Type} (p : Program) (env : Env V) (hv : valid p = true)
    (err : String) (hc : env.connectErr = some err) :
    run p env =
      { out := [Event.newClient (mongoUrl p), Event.log ("Connecting to " ++ mongoUrl p),
                Event.connect, Event.log "Couldn\x27t connect to the Mongo database",
                Event.logErr err, Event.exit 1]
        exit := some 1 } := by
  rw [run_of_valid p env hv]
  simp [onConnect, hc]

theorem run_load_failed {V : Type} (p : Program) (env : Env V) (hv : valid p = true)
    (hc : env.connectErr = none) (err : String) (hl : env.loadErr = some err) :
    run p env =
      { out := [Event.newClient (mongoUrl p), Event.log ("Connecting to " ++ mongoUrl p),
                Event.connect, Event.log "Connected", Event.db p.mongodbDbname,
                Event.collection p.mongodbCollection, Event.loadDatabase p.nedbDatafile,
                Event.log "Error while loading the data from the NeDB database",
                Event.logErr err, Event.exit 1]
        exit := some 1 } := by
  rw [run_of_valid p env hv]
  simp [onConnect, onLoad, hc, hl]

/-- The calls of a run that connected and loaded: one `insertOne` per document
of `data`, in order, each with what the `map` callback left of the document;
and the documents in memory are those same objects after the calls. -/
theorem run_calls {V : Type} (p : Program) (env : Env V) (hv : valid p = true)
    (hc : env.connectErr = none) (hl : env.loadErr = none) :
    insertCalls (run p env).out = (env.data.map (passed (keepIdsFlag p))).enum ∧
      (run p env).heap = (fanOut (keepIdsFlag p) env.objectId 0 env.data).2 := by
  by_cases hd : env.data = []
  · rw [run_empty p env hv hc hl hd]
    simp [insertCalls, hd, fanOut]
  · rw [run_pass p env hv hc hl hd]
    obtain ⟨h1, h2, _⟩ := foldl_turn_frame env.data.length env.insertErr env.order (waiting p env)
    rw [h1, h2]
    simp [waiting, preamble, insertCalls_append, insertCalls, fanOut_calls, List.enum]

/-- The connection string of every run that passes the argument checks. -/
theorem run_urls {V : Type} (p : Program) (env : Env V) (hv : valid p = true) :
    clientUrls (run p env).out = [mongoUrl p] := by
  cases hc : env.connectErr with
  | some err => rw [run_connect_failed p env hv err hc]; rfl
  | none =>
    cases hl : env.loadErr with
    | some err => rw [run_load_failed p env hv hc err hl]; rfl
    | none =>
      by_cases hd : env.data = []
      · rw [run_empty p env hv hc hl hd]; rfl
      · rw [run_pass p env hv hc hl hd]
        rw [(foldl_turn_frame env.data.length env.insertErr env.order (waiting p env)).2.2.1]
        simp [waiting, preamble, clientUrls_append, clientUrls, fanOut_urls]

/-! ## The success message -/

theorem append_ne_of_head (a b u : String) (c d : Char) (ra rb : List Char)
    (ha : a.data = c :: ra) (hb : b.data = d :: rb) (hcd : c ≠ d) : a ++ u ≠ b := by
  intro h
  have h2 := congrArg String.data h
  rw [String.data_append, ha, hb] at h2
  simp at h2
  exact hcd h2.1

theorem fanOut_no_log {V : Type} (k : Bool) (oid : Nat → V) (data : List (Doc V))
    (i : Nat) (m : String) :
    Event.log m ∉ (fanOut k oid i data).1 := by
  induction data generalizing i with
  | nil => simp [fanOut]
  | cons d data ih => simp [fanOut, ih]

theorem waiting_no_success {V : Type} (p : Program) (env : Env V) :
    Event.log "Everything went fine" ∉ (waiting p env).out := by
  have h1 : "Connecting to " ++ mongoUrl p ≠ "Everything went fine" :=
    append_ne_of_head _ _ _ 'C' 'E' _ _ rfl rfl (by decide)
  have h2 : "Loaded data from the NeDB database at " ++ p.nedbDatafile.toStr ++
      ", " ++ toString env.data.length ++ " documents" ≠ "Everything went fine" := by
    rw [String.append_assoc, String.append_assoc, String.append_assoc]
    exact append_ne_of_head _ _ _ 'L' 'E' _ _ rfl rfl (by decide)
  simp [waiting, preamble, fanOut_no_log, h1.symm, h2.symm]

theorem turn_success {V : Type} (n : Nat) (ie : Nat → Option String) (s : St V) (t : List Nat)
    (hs : Event.log "Everything went fine" ∈ s.out → s.exit = some 0) :
    Event.log "Everything went fine" ∈ (turn n ie s t).out → (turn n ie s t).exit = some 0 := by
  by_cases hx : s.exit.isSome = true
  · rw [turn_exited n ie s t hx]
    exact hs
  · have hx : s.exit = none := by simpa using hx
    rw [turn_waiting n ie s t hx]
    obtain ⟨g1, g2, _⟩ := foldl_fire_frame n ie t s
    have hno : Event.log "Everything went fine" ∉ (t.foldl (fire n ie) s).out := by
      rw [g1]
      intro hm
      rw [hs hm] at hx
      cases hx
    rcases reactions_cases n (t.foldl (fire n ie) s) with ⟨i, err, rest, _, h⟩ | ⟨_, _, h⟩ |
      ⟨_, _, h⟩
    · rw [h]
      intro hm
      simp [hno] at hm
    · rw [h]
      intro _
      rfl
    · rw [h]
      intro hm
      exact absurd hm hno

theorem foldl_turn_success {V : Type} (n : Nat) (ie : Nat → Option String)
    (l : List (List Nat)) (s : St V)
    (hs : Event.log "Everything went fine" ∈ s.out → s.exit = some 0) :
    Event.log "Everything went fine" ∈ (l.foldl (turn n ie) s).out →
      (l.foldl (turn n ie) s).exit = some 0 := by
  induction l generalizing s with
  | nil => exact hs
  | cons t l ih => exact ih (turn n ie s t) (turn_success n ie s t hs)

/-- The message of the `then` handler is printed only by a run that exits with 0. -/
theorem success_only_at_exit_0 {V : Type} (p : Program) (env : Env V) :
    Event.log "Everything went fine" ∈ (run p env).out → (run p env).exit = some 0 := by
  cases hv : valid p with
  | false =>
    unfold run
    split_ifs <;> simp
    simp [valid] at hv
    simp_all
  | true =>
    have h1 : "Connecting to " ++ mongoUrl p ≠ "Everything went fine" :=
      append_ne_of_head _ _ _ 'C' 'E' _ _ rfl rfl (by decide)
    cases hc : env.connectErr with
    | some err =>
      rw [run_connect_failed p env hv err hc]
      simp [h1.symm]
    | none =>
      cases hl : env.loadErr with
      | some err =>
        rw [run_load_failed p env hv hc err hl]
        simp [h1.symm]
      | none =>
        by_cases hd : env.data = []
        · rw [run_empty p env hv hc hl hd]
          simp
        · rw [run_pass p env hv hc hl hd]
          apply foldl_turn_success
          intro hm
          exact absurd hm (waiting_no_success p env)

/-- The exit code of a run that reached the insert pass, once every callback
has fired. -/
theorem run_pass_exit {V : Type} (p : Program) (env : Env V) (hv : valid p = true)
    (hc : env.connectErr = none) (hl : env.loadErr = none) (hd : env.data ≠ [])
    (ho : Complete env.data.length env.order) :
    (run p env).exit =
      some (if anyRejected env.data.length env.insertErr then 1 else 0) := by
  rw [run_pass p env hv hc hl hd]
  apply foldl_turn_exit
  · intro _
    refine ⟨rfl, by simp [waiting], ?_, fun i hi => Or.inr (ho i hi)⟩
    rw [Bool.eq_false_iff]
    intro h
    have hpos : 0 < env.data.length := List.length_pos.mpr hd
    have := (allFulfilled_iff _ _).mp h 0 hpos
    simp [waiting] at this
  · intro c hx
    simp [waiting] at hx

/-! ## Documents and `delete doc._id` -/

theorem deleteId_cons_id {V : Type} (x : String × V) (d : Doc V) (hx : x.1 = "_id") :
    deleteId (x :: d) = deleteId d := by
  simp [deleteId, hx]

theorem deleteId_cons_other {V : Type} (x : String × V) (d : Doc V) (hx : x.1 ≠ "_id") :
    deleteId (x :: d) = x :: deleteId d := by
  simp [deleteId, hx]

theorem get_cons_hit {V : Type} (x : String × V) (d : Doc V) (k : String) (hx : x.1 = k) :
    Doc.get (x :: d) k = some x.2 := by
  simp [Doc.get, hx]

theorem get_cons_miss {V : Type} (x : String × V) (d : Doc V) (k : String) (hx : x.1 ≠ k) :
    Doc.get (x :: d) k = Doc.get d k := by
  simp [Doc.get, hx]

theorem deleteId_get_id {V : Type} (d : Doc V) : Doc.get (deleteId d) "_id" = none := by
  induction d with
  | nil => rfl
  | cons x d ih =>
    by_cases hx : x.1 = "_id"
    · rw [deleteId_cons_id x d hx]
      exact ih
    · rw [deleteId_cons_other x d hx, get_cons_miss x _ _ hx]
      exact ih

theorem deleteId_get_other {V : Type} (d : Doc V) (k : String) (hk : k ≠ "_id") :
    Doc.get (deleteId d) k = Doc.get d k := by
  induction d with
  | nil => rfl
  | cons x d ih =>
    by_cases hx : x.1 = "_id"
    · have hxk : x.1 ≠ k := fun h => hk (h ▸ hx)
      rw [deleteId_cons_id x d hx, get_cons_miss x d k hxk]
      exact ih
    · rw [deleteId_cons_other x d hx]
      by_cases hxk : x.1 = k
      · rw [get_cons_hit x _ k hxk, get_cons_hit x _ k hxk]
      · rw [get_cons_miss x _ k hxk, get_cons_miss x _ k hxk]
        exact ih

theorem get_append_id {V : Type} (d : Doc V) (oid : V) (k : String) (hk : k ≠ "_id") :
    Doc.get (d ++ [("_id", oid)]) k = Doc.get d k := by
  induction d with
  | nil => exact get_cons_miss ("_id", oid) [] k (fun h => hk h.symm)
  | cons x d ih =>
    by_cases hx : x.1 = k
    · rw [List.cons_append, get_cons_hit x _ k hx, get_cons_hit x _ k hx]
    · rw [List.cons_append, get_cons_miss x _ k hx, get_cons_miss x _ k hx]
      exact ih

theorem get_append_fresh {V : Type} (d : Doc V) (oid : V) (h : Doc.get d "_id" = none) :
    Doc.get (d ++ [("_id", oid)]) "_id" = some oid := by
  induction d with
  | nil => exact get_cons_hit ("_id", oid) [] "_id" rfl
  | cons x d ih =>
    by_cases hx : x.1 = "_id"
    · rw [get_cons_hit x d "_id" hx] at h
      cases h
    · rw [get_cons_miss x d "_id" hx] at h
      rw [List.cons_append, get_cons_miss x _ "_id" hx]
      exact ih h

theorem assignId_get_other {V : Type} (oid : V) (d : Doc V) (k : String) (hk : k ≠ "_id") :
    Doc.get (assignId oid d) k = Doc.get d k := by
  unfold assignId
  split_ifs
  · exact get_append_id d oid k hk
  · rfl

theorem assignId_of_id {V : Type} (oid : V) (d : Doc V) (h : Doc.get d "_id" ≠ none) :
    assignId oid d = d := by
  unfold assignId
  rw [if_neg]
  cases hd : Doc.get d "_id" with
  | none => exact absurd hd h
  | some v => simp

theorem assignId_get_fresh {V : Type} (oid : V) (d : Doc V) (h : Doc.get d "_id" = none) :
    Doc.get (assignId oid d) "_id" = some oid := by
  unfold assignId
  rw [if_pos (by simp [h])]
  exact get_append_fresh d oid h

/-! ## Argument checks -/

/-- C1: when one of the four required options (`mongodbDbname`,
`mongodbCollection`, `nedbDatafile`, `keepIds`) is falsy, the run exits with
code 1, the exit is the last thing it does, and nothing in its output touches
the target or the source: no `MongoClient`, no `connect`, no `loadDatabase`,
no `insertOne`. -/
theorem missing_required_exits_without_connecting {V : Type} (p : Program) (env : Env V)
    (h : p.mongodbDbname.truthy = false ∨ p.mongodbCollection.truthy = false ∨
      p.nedbDatafile.truthy = false ∨ p.keepIds.truthy = false) :
    (run p env).exit = some 1 ∧ (run p env).out.getLast? = some (Event.exit 1) ∧
      (∀ e ∈ (run p env).out, e.touches = false) ∧
      insertCalls (run p env).out = [] ∧ clientUrls (run p env).out = [] := by
  have hv : valid p = false := by
    rcases h with h | h | h | h <;> simp [valid, h]
  obtain ⟨h1, h2, h3⟩ := run_of_missing p env hv
  refine ⟨h1, h2, h3, ?_, ?_⟩
  · generalize (run p env).out = out at h3
    induction out with
    | nil => rfl
    | cons e out ih =>
      have he := h3 e (List.mem_cons_self _ _)
      have ih := ih (fun x hx => h3 x (List.mem_cons_of_mem _ hx))
      cases e <;> simp_all [insertCalls, Event.touches]
  · generalize (run p env).out = out at h3
    induction out with
    | nil => rfl
    | cons e out ih =>
      have he := h3 e (List.mem_cons_self _ _)
      have ih := ih (fun x hx => h3 x (List.mem_cons_of_mem _ hx))
      cases e <;> simp_all [clientUrls, Event.touches]

theorem missing_required_exits_without_connecting_witness :
    optsEmptyKeep.keepIds.truthy = false ∧
      ((run optsEmptyKeep envThree).exit = some 1 ∧
        (run optsEmptyKeep envThree).out.getLast? = some (Event.exit 1) ∧
        (∀ e ∈ (run optsEmptyKeep envThree).out, e.touches = false) ∧
        insertCalls (run optsEmptyKeep envThree).out = [] ∧
        clientUrls (run optsEmptyKeep envThree).out = []) :=
  ⟨by decide,
    missing_required_exits_without_connecting optsEmptyKeep envThree
      (Or.inr (Or.inr (Or.inr (by decide))))⟩

/-! ## Connection string -/

/-- C2, as stated, fails: with `--mongodb-port 0` the options pass the argument
checks and a port value was supplied, yet the connection string is
`mongodb+srv://localhost/db`, not `mongodb://localhost:0/db`. -/
theorem port_zero_gets_srv_scheme :
    valid optsPortZero = true ∧ optsPortZero.mongodbPort = JSVal.num 0 (by decide) ∧
      clientUrls (run optsPortZero envThree).out = ["mongodb+srv://localhost/db"] ∧
      clientUrls (run optsPortZero envThree).out ≠
        ["mongodb://" ++ auth optsPortZero ++ optsPortZero.mongodbHost.toStr ++ ":" ++
          optsPortZero.mongodbPort.toStr ++ "/" ++ optsPortZero.mongodbDbname.toStr] := by
  decide

/-- C2, amended: for every configuration that passes the argument checks the
one connection string handed to `MongoClient` is `mongodb://` + credentials +
host + `:` + port + `/` + dbname when the parsed port is truthy (neither
absent, nor 0, nor `NaN`), and `mongodb+srv://` + credentials + host + `/` +
dbname otherwise; the scheme is `mongodb:` exactly when the parsed port is
truthy. -/
theorem connection_string_by_truthy_port {V : Type} (p : Program) (env : Env V)
    (hv : valid p = true) :
    clientUrls (run p env).out =
        [if p.mongodbPort.truthy then
           "mongodb://" ++ auth p ++ p.mongodbHost.toStr ++ ":" ++ p.mongodbPort.toStr ++ "/" ++
             p.mongodbDbname.toStr
         else "mongodb+srv://" ++ auth p ++ p.mongodbHost.toStr ++ "/" ++ p.mongodbDbname.toStr] ∧
      (protocol p = "mongodb:" ↔ p.mongodbPort.truthy = true) := by
  rw [run_urls p env hv]
  constructor
  · cases hp : p.mongodbPort.truthy <;> simp [mongoUrl, protocol, hp, String.append_assoc]
  · cases hp : p.mongodbPort.truthy <;> simp [protocol, hp]

theorem connection_string_by_truthy_port_witness :
    valid optsFull = true ∧
      (clientUrls (run optsFull envThree).out =
          [if optsFull.mongodbPort.truthy then
             "mongodb://" ++ auth optsFull ++ optsFull.mongodbHost.toStr ++ ":" ++
               optsFull.mongodbPort.toStr ++ "/" ++ optsFull.mongodbDbname.toStr
           else "mongodb+srv://" ++ auth optsFull ++ optsFull.mongodbHost.toStr ++ "/" ++
             optsFull.mongodbDbname.toStr] ∧
        (protocol optsFull = "mongodb:" ↔ optsFull.mongodbPort.truthy = true)) :=
  ⟨by decide, connection_string_by_truthy_port optsFull envThree (by decide)⟩

/-- C3: for every configuration that passes the argument checks, the
connection string is scheme + `//` + credentials + host + the rest, where the
credentials are `username@` when the username is present (truthy) and the
password is not, `username:password@` when both are present, and empty when
the username is not present, whatever the password. -/
theorem credentials_before_host {V : Type} (p : Program) (env : Env V) (hv : valid p = true) :
    clientUrls (run p env).out =
        [protocol p ++ "//" ++ auth p ++ p.mongodbHost.toStr ++
          (if p.mongodbPort.truthy then ":" ++ p.mongodbPort.toStr else "") ++ "/" ++
          p.mongodbDbname.toStr] ∧
      (p.mongodbUsername.truthy = true → p.mongodbPassword.truthy = false →
        auth p = p.mongodbUsername.toStr ++ "@") ∧
      (p.mongodbUsername.truthy = true → p.mongodbPassword.truthy = true →
        auth p = p.mongodbUsername.toStr ++ ":" ++ p.mongodbPassword.toStr ++ "@") ∧
      (p.mongodbUsername.truthy = false → auth p = "") := by
  rw [run_urls p env hv]
  refine ⟨?_, ?_, ?_, ?_⟩
  · cases hp : p.mongodbPort.truthy <;> simp [mongoUrl, hp, String.append_assoc]
  · intro hu hw
    simp [auth, hu, hw]
  · intro hu hw
    simp [auth, hu, hw, String.append_assoc]
  · intro hu
    simp [auth, hu]

theorem credentials_before_host_witness :
    valid optsFull = true ∧ auth optsFull = "ann:pw@" ∧
      clientUrls (run optsFull envThree).out = ["mongodb://ann:pw@localhost:27017/db"] ∧
      (clientUrls (run optsFull envThree).out =
          [protocol optsFull ++ "//" ++ auth optsFull ++ optsFull.mongodbHost.toStr ++
            (if optsFull.mongodbPort.truthy then ":" ++ optsFull.mongodbPort.toStr else "") ++
            "/" ++ optsFull.mongodbDbname.toStr] ∧
        (optsFull.mongodbUsername.truthy = true → optsFull.mongodbPassword.truthy = false →
          auth optsFull = optsFull.mongodbUsername.toStr ++ "@") ∧
        (optsFull.mongodbUsername.truthy = true → optsFull.mongodbPassword.truthy = true →
          auth optsFull =
            optsFull.mongodbUsername.toStr ++ ":" ++ optsFull.mongodbPassword.toStr ++ "@") ∧
        (optsFull.mongodbUsername.truthy = false → auth optsFull = "")) :=
  ⟨by decide, by decide, by decide, credentials_before_host optsFull envThree (by decide)⟩

/-! ## What is inserted -/

theorem passed_false {V : Type} (data : List (Doc V)) :
    data.map (passed false) = data.map deleteId := by
  simp [passed]

theorem passed_true {V : Type} (data : List (Doc V)) : data.map (passed true) = data := by
  have h : (passed true : Doc V → Doc V) = id := by
    funext d
    simp [passed]
  rw [h, List.map_id]

theorem run_connects {V : Type} (p : Program) (env : Env V) (hv : valid p = true) :
    Event.connect ∈ (run p env).out := by
  cases hc : env.connectErr with
  | some err => rw [run_connect_failed p env hv err hc]; simp
  | none =>
    cases hl : env.loadErr with
    | some err => rw [run_load_failed p env hv hc err hl]; simp
    | none =>
      by_cases hd : env.data = []
      · rw [run_empty p env hv hc hl hd]; simp
      · rw [run_pass p env hv hc hl hd]
        apply (foldl_turn_frame _ _ _ _).2.2.2
        simp [waiting, preamble]

/-- C4: with identifier retention off (`keepIds` false after line 66), on every
run that connects and loads, the `insertOne` calls are one per document of the
loaded data, in order, each with the document less its `_id`: the document
passed has no `_id` field, whether or not the source document had one, and has
every other field with the value of the source document. -/
theorem strip_ids_inserts_without_id {V : Type} (p : Program) (env : Env V)
    (hv : valid p = true) (hk : keepIdsFlag p = false)
    (hc : env.connectErr = none) (hl : env.loadErr = none) :
    insertCalls (run p env).out = (env.data.map deleteId).enum ∧
      ∀ i d, (i, d) ∈ insertCalls (run p env).out →
        ∃ src, env.data[i]? = some src ∧ Doc.get d "_id" = none ∧
          ∀ k, k ≠ "_id" → Doc.get d k = Doc.get src k := by
  have h := (run_calls p env hv hc hl).1
  rw [hk, passed_false] at h
  refine ⟨h, fun i d hm => ?_⟩
  rw [h, List.mk_mem_enum_iff_getElem?, List.getElem?_map] at hm
  cases hs : env.data[i]? with
  | none => simp [hs] at hm
  | some src =>
    simp only [hs, Option.map_some', Option.some.injEq] at hm
    subst hm
    exact ⟨src, rfl, deleteId_get_id src, fun k hk => deleteId_get_other src k hk⟩

theorem strip_ids_inserts_without_id_witness :
    (valid optsFalse = true ∧ keepIdsFlag optsFalse = false ∧ envThree.connectErr = none ∧
        envThree.loadErr = none) ∧
      insertCalls (run optsFalse envThree).out =
        [(0, [("a", 1)]), (1, [("a", 2)]), (2, [("a", 3)])] ∧
      (insertCalls (run optsFalse envThree).out = (envThree.data.map deleteId).enum ∧
        ∀ i d, (i, d) ∈ insertCalls (run optsFalse envThree).out →
          ∃ src, envThree.data[i]? = some src ∧ Doc.get d "_id" = none ∧
            ∀ k, k ≠ "_id" → Doc.get d k = Doc.get src k) :=
  ⟨by decide, by decide,
    strip_ids_inserts_without_id optsFalse envThree (by decide) (by decide) rfl rfl⟩

/-- C5: with identifier retention on (`keepIds` true after line 66), on every
run that connects and loads, the `insertOne` calls are one per document of the
loaded data, in order, each with the source document itself, so with its
original `_id`. -/
theorem keep_ids_inserts_unchanged {V : Type} (p : Program) (env : Env V)
    (hv : valid p = true) (hk : keepIdsFlag p = true)
    (hc : env.connectErr = none) (hl : env.loadErr = none) :
    insertCalls (run p env).out = env.data.enum ∧
      ∀ i d, (i, d) ∈ insertCalls (run p env).out →
        ∃ src, env.data[i]? = some src ∧ d = src ∧ Doc.get d "_id" = Doc.get src "_id" := by
  have h := (run_calls p env hv hc hl).1
  rw [hk, passed_true] at h
  refine ⟨h, fun i d hm => ?_⟩
  rw [h, List.mk_mem_enum_iff_getElem?] at hm
  exact ⟨d, hm, rfl, rfl⟩

theorem keep_ids_inserts_unchanged_witness :
    (valid optsTrue = true ∧ keepIdsFlag optsTrue = true ∧ envThree.connectErr = none ∧
        envThree.loadErr = none) ∧
      insertCalls (run optsTrue envThree).out =
        [(0, [("_id", 1), ("a", 1)]), (1, [("_id", 2), ("a", 2)]), (2, [("_id", 3), ("a", 3)])] ∧
      (insertCalls (run optsTrue envThree).out = envThree.data.enum ∧
        ∀ i d, (i, d) ∈ insertCalls (run optsTrue envThree).out →
          ∃ src, envThree.data[i]? = some src ∧ d = src ∧
            Doc.get d "_id" = Doc.get src "_id") :=
  ⟨by decide, by decide,
    keep_ids_inserts_unchanged optsTrue envThree (by decide) (by decide) rfl rfl⟩

/-- C9, as stated, fails: with `--keep-ids false` the three documents of the
example are no longer in memory as they were loaded once the insert pass has
run: each went to `insertOne`, the loaded object itself, with its `_id`
deleted, and the `_id` it has afterwards is the fresh one of the driver, not
the loaded one. -/
theorem strip_ids_mutates_loaded_documents :
    valid optsFalse = true ∧ envThree.data = threeDocs ∧
      insertCalls (run optsFalse envThree).out =
        [(0, [("a", 1)]), (1, [("a", 2)]), (2, [("a", 3)])] ∧
      (run optsFalse envThree).heap =
        [[("a", 1), ("_id", 5000)], [("a", 2), ("_id", 5001)], [("a", 3), ("_id", 5002)]] ∧
      (run optsFalse envThree).heap.map (fun d => Doc.get d "_id") ≠
        envThree.data.map (fun d => Doc.get d "_id") := by
  decide

/-- C9, amended: on every run that connects and loads, each loaded document is
in memory after the insert pass with every field other than `_id` as it was
loaded; with identifier retention on, a document loaded with an `_id` is
unchanged altogether; with identifier retention off, the loaded `_id` is
deleted in place, the document goes to `insertOne` without it, and the `_id`
it has afterwards is the fresh one the driver wrote. -/
theorem loaded_documents_after_pass {V : Type} (p : Program) (env : Env V)
    (hv : valid p = true) (hc : env.connectErr = none) (hl : env.loadErr = none) :
    (run p env).heap.length = env.data.length ∧
      ∀ i src, env.data[i]? = some src →
        ∃ d, (run p env).heap[i]? = some d ∧
          (∀ k, k ≠ "_id" → Doc.get d k = Doc.get src k) ∧
          (keepIdsFlag p = true → Doc.get src "_id" ≠ none → d = src) ∧
          (keepIdsFlag p = false →
            (i, deleteId src) ∈ insertCalls (run p env).out ∧
              Doc.get d "_id" = some (env.objectId i)) := by
  obtain ⟨h1, h2⟩ := run_calls p env hv hc hl
  refine ⟨by rw [h2, fanOut_heap_length], fun i src hsrc => ?_⟩
  refine ⟨assignId (env.objectId i) (passed (keepIdsFlag p) src), ?_, ?_, ?_, ?_⟩
  · rw [h2, fanOut_heap_get, hsrc]
    simp
  · intro k hk
    rw [assignId_get_other _ _ k hk]
    cases hf : keepIdsFlag p
    · simpa [passed] using deleteId_get_other src k hk
    · simp [passed]
  · intro hf hid
    have hp : passed (keepIdsFlag p) src = src := by simp [passed, hf]
    rw [hp, assignId_of_id _ _ hid]
  · intro hf
    have hp : passed (keepIdsFlag p) src = deleteId src := by simp [passed, hf]
    refine ⟨?_, ?_⟩
    · rw [h1, List.mk_mem_enum_iff_getElem?, List.getElem?_map, hsrc, hf]
      simp [passed]
    · rw [hp]
      exact assignId_get_fresh _ _ (deleteId_get_id src)

theorem loaded_documents_after_pass_witness :
    (valid optsTrue = true ∧ envThree.connectErr = none ∧ envThree.loadErr = none) ∧
      (run optsTrue envThree).heap = threeDocs ∧
      ((run optsTrue envThree).heap.length = envThree.data.length ∧
        ∀ i src, envThree.data[i]? = some src →
          ∃ d, (run optsTrue envThree).heap[i]? = some d ∧
            (∀ k, k ≠ "_id" → Doc.get d k = Doc.get src k) ∧
            (keepIdsFlag optsTrue = true → Doc.get src "_id" ≠ none → d = src) ∧
            (keepIdsFlag optsTrue = false →
              (i, deleteId src) ∈ insertCalls (run optsTrue envThree).out ∧
                Doc.get d "_id" = some (envThree.objectId i))) :=
  ⟨by decide, by decide, loaded_documents_after_pass optsTrue envThree (by decide) rfl rfl⟩

/-- C10: for every configuration that passes the argument checks, identifier
retention is on exactly when the value of `--keep-ids` is the string `true`;
the run goes on to connect whatever the value; and with any other value that
passes the presence check, on a run that connects and loads, every document
is handed to `insertOne` less its `_id`. -/
theorem keep_ids_only_for_string_true {V : Type} (p : Program) (env : Env V)
    (hv : valid p = true) :
    (keepIdsFlag p = true ↔ p.keepIds = JSVal.str "true") ∧
      Event.connect ∈ (run p env).out ∧
      (p.keepIds ≠ JSVal.str "true" → env.connectErr = none → env.loadErr = none →
        insertCalls (run p env).out = (env.data.map deleteId).enum ∧
          ∀ c ∈ insertCalls (run p env).out, Doc.get c.2 "_id" = none) := by
  have hiff : keepIdsFlag p = true ↔ p.keepIds = JSVal.str "true" := by
    unfold keepIdsFlag JSVal.strictEqStr
    cases p.keepIds <;> simp
  refine ⟨hiff, run_connects p env hv, fun hne hc hl => ?_⟩
  have hk : keepIdsFlag p = false := by
    rw [Bool.eq_false_iff]
    exact fun h => hne (hiff.mp h)
  have h := (run_calls p env hv hc hl).1
  rw [hk, passed_false] at h
  refine ⟨h, fun c hm => ?_⟩
  rw [h] at hm
  have := List.snd_mem_of_mem_enumFrom hm
  obtain ⟨src, _, hsrc⟩ := List.mem_map.mp this
  rw [← hsrc]
  exact deleteId_get_id src

theorem keep_ids_only_for_string_true_witness :
    valid optsBareKeep = true ∧ optsBareKeep.keepIds = JSVal.bool true ∧
      insertCalls (run optsBareKeep envThree).out =
        [(0, [("a", 1)]), (1, [("a", 2)]), (2, [("a", 3)])] ∧
      ((keepIdsFlag optsBareKeep = true ↔ optsBareKeep.keepIds = JSVal.str "true") ∧
        Event.connect ∈ (run optsBareKeep envThree).out ∧
        (optsBareKeep.keepIds ≠ JSVal.str "true" → envThree.connectErr = none →
          envThree.loadErr = none →
          insertCalls (run optsBareKeep envThree).out = (envThree.data.map deleteId).enum ∧
            ∀ c ∈ insertCalls (run optsBareKeep envThree).out, Doc.get c.2 "_id" = none)) :=
  ⟨by decide, by decide, by decide,
    keep_ids_only_for_string_true optsBareKeep envThree (by decide)⟩

/-! ## Exit code -/

/-- C6: on a run whose options pass the argument checks, that connects and
loads `N` documents, with a target that answers every insert without error
(each callback fires), exactly `N` `insertOne` calls are issued, the `i`-th for
the `i`-th document of the loaded data, and the run exits with code 0; with
`N = 0` there is no call and the exit code is 0. -/
theorem all_accepted_inserts_each_once_exits_0 {V : Type} (p : Program) (env : Env V) (N : Nat)
    (hv : valid p = true) (hc : env.connectErr = none) (hl : env.loadErr = none)
    (hN : env.data.length = N) (ha : ∀ i, i < N → env.insertErr i = none)
    (ho : Complete N env.order) :
    (insertCalls (run p env).out).length = N ∧
      (insertCalls (run p env).out).map Prod.fst = List.range N ∧
      insertCalls (run p env).out = (env.data.map (passed (keepIdsFlag p))).enum ∧
      (run p env).exit = some 0 ∧
      (N = 0 → insertCalls (run p env).out = []) := by
  subst hN
  have h := (run_calls p env hv hc hl).1
  have hx : (run p env).exit = some 0 := by
    by_cases hd : env.data = []
    · rw [run_empty p env hv hc hl hd]
    · rw [run_pass_exit p env hv hc hl hd ho]
      have : anyRejected env.data.length env.insertErr = false := by
        rw [Bool.eq_false_iff]
        intro hr
        obtain ⟨i, hi, hne⟩ := (anyRejected_iff _ _).mp hr
        exact hne (ha i hi)
      simp [this]
  refine ⟨?_, ?_, h, hx, fun h0 => ?_⟩
  · rw [h]
    simp [List.enum]
  · rw [h]
    simp [List.enum, List.enumFrom_map_fst, List.range_eq_range']
  · rw [h, List.length_eq_zero.mp h0]
    rfl

theorem all_accepted_inserts_each_once_exits_0_witness :
    (valid optsFalse = true ∧ envThree.connectErr = none ∧ envThree.loadErr = none ∧
        envThree.data.length = 3 ∧ (∀ i, i < 3 → envThree.insertErr i = none) ∧
        Complete 3 envThree.order) ∧
      ((insertCalls (run optsFalse envThree).out).length = 3 ∧
        (insertCalls (run optsFalse envThree).out).map Prod.fst = List.range 3 ∧
        insertCalls (run optsFalse envThree).out =
          (envThree.data.map (passed (keepIdsFlag optsFalse))).enum ∧
        (run optsFalse envThree).exit = some 0 ∧
        ((3 : Nat) = 0 → insertCalls (run optsFalse envThree).out = [])) :=
  ⟨⟨by decide, rfl, rfl, rfl, fun _ _ => rfl, by unfold Complete; decide⟩,
    all_accepted_inserts_each_once_exits_0 optsFalse envThree 3 (by decide) rfl rfl rfl
      (fun _ _ => rfl) (by unfold Complete; decide)⟩

/-- C7: once every insert callback has fired, the exit code is 1 when a
required option is missing, or the connection fails, or the load fails, or
some insert of the loaded data is rejected, and 0 otherwise; and with a
non-empty loaded data of which some insert is rejected the run that got there
exits with 1 and never prints the success message. -/
theorem exit_code_determined {V : Type} (p : Program) (env : Env V)
    (ho : Complete env.data.length env.order) :
    (run p env).exit =
        some (if valid p = false ∨ env.connectErr.isSome = true ∨ env.loadErr.isSome = true ∨
                anyRejected env.data.length env.insertErr = true then 1 else 0) ∧
      (env.data ≠ [] → anyRejected env.data.length env.insertErr = true →
        (run p env).exit = some 1 ∧ Event.log "Everything went fine" ∉ (run p env).out) := by
  have key : (run p env).exit =
      some (if valid p = false ∨ env.connectErr.isSome = true ∨ env.loadErr.isSome = true ∨
              anyRejected env.data.length env.insertErr = true then 1 else 0) := by
    cases hv : valid p with
    | false => simp [(run_of_missing p env hv).1]
    | true =>
      cases hc : env.connectErr with
      | some err => rw [run_connect_failed p env hv err hc]; simp
      | none =>
        cases hl : env.loadErr with
        | some err => rw [run_load_failed p env hv hc err hl]; simp
        | none =>
          by_cases hd : env.data = []
          · rw [run_empty p env hv hc hl hd]
            simp [hd, anyRejected]
          · rw [run_pass_exit p env hv hc hl hd ho]
            simp
  refine ⟨key, fun _ hr => ?_⟩
  have h1 : (run p env).exit = some 1 := by
    rw [key]
    simp [hr]
  refine ⟨h1, fun hm => ?_⟩
  rw [success_only_at_exit_0 p env hm] at h1
  cases h1

theorem exit_code_determined_witness :
    Complete envRejectSecond.data.length envRejectSecond.order ∧
      (run optsFalse envRejectSecond).exit = some 1 ∧
      ((run optsFalse envRejectSecond).exit =
          some (if valid optsFalse = false ∨ envRejectSecond.connectErr.isSome = true ∨
                  envRejectSecond.loadErr.isSome = true ∨
                  anyRejected envRejectSecond.data.length envRejectSecond.insertErr = true
                then 1 else 0) ∧
        (envRejectSecond.data ≠ [] →
          anyRejected envRejectSecond.data.length envRejectSecond.insertErr = true →
          (run optsFalse envRejectSecond).exit = some 1 ∧
            Event.log "Everything went fine" ∉ (run optsFalse envRejectSecond).out)) :=
  ⟨by unfold Complete; decide, by decide,
    exit_code_determined optsFalse envRejectSecond (by unfold Complete; decide)⟩

/-! ## A rejected insert among inserts in flight -/

/-- The callbacks of one turn, each of a distinct pending insert: the accepted
ones fulfil their promises, the rejected ones reject theirs, in order. -/
theorem foldl_fire_fresh {V : Type} (n : Nat) (ie : Nat → Option String) (l : List Nat)
    (s : St V) (hl : ∀ i ∈ l, i < n) (hnd : l.Nodup)
    (hdis : ∀ i ∈ l, i ∉ s.resolved ∧ i ∉ s.rejected.map Prod.fst) :
    l.foldl (fire n ie) s =
      { s with
        resolved := s.resolved ++ l.filter (fun i => (ie i).isNone)
        rejected := s.rejected ++ l.filterMap (fun i => (ie i).map (fun e => (i, e))) } := by
  induction l generalizing s with
  | nil => simp
  | cons a l ih =>
    have ha := hl a (List.mem_cons_self _ _)
    obtain ⟨ha1, ha2⟩ := hdis a (List.mem_cons_self _ _)
    obtain ⟨hal, hndl⟩ := List.nodup_cons.mp hnd
    have hl' : ∀ i ∈ l, i < n := fun i hi => hl i (List.mem_cons_of_mem _ hi)
    have hne : ∀ i ∈ l, i ≠ a := fun i hi h => hal (h ▸ hi)
    simp only [List.foldl]
    rcases fire_cases n ie s a with ⟨hs, _⟩ | ⟨err, _, _, _, he, h⟩ | ⟨_, _, _, he, h⟩
    · rcases hs with hs | hs | hs
      · omega
      · exact absurd hs ha1
      · exact absurd hs ha2
    · rw [h, ih _ hl' hndl]
      · simp [he]
      · intro i hi
        obtain ⟨h1, h2⟩ := hdis i (List.mem_cons_of_mem _ hi)
        refine ⟨h1, ?_⟩
        simp only [List.map_append, List.map_cons, List.map_nil, List.mem_append,
          List.mem_singleton, not_or]
        exact ⟨h2, hne i hi⟩
    · rw [h, ih _ hl' hndl]
      · simp [he]
      · intro i hi
        obtain ⟨h1, h2⟩ := hdis i (List.mem_cons_of_mem _ hi)
        refine ⟨?_, h2⟩
        simp only [List.mem_append, List.mem_singleton, not_or]
        exact ⟨h1, hne i hi⟩

/-- Turns in which only accepted inserts complete, while the insert `r` is
still pending: the promises are fulfilled and the process goes on waiting. -/
theorem foldl_turn_accepts {V : Type} (n : Nat) (ie : Nat → Option String) (r : Nat)
    (hr : r < n) (l : List (List Nat)) (s : St V) (hx : s.exit = none)
    (hrj : s.rejected = []) (hl : ∀ i ∈ l.flatten, i < n ∧ ie i = none)
    (hnd : (s.resolved ++ l.flatten).Nodup) (hrn : r ∉ s.resolved ++ l.flatten) :
    l.foldl (turn n ie) s = { s with resolved := s.resolved ++ l.flatten } := by
  induction l generalizing s with
  | nil => simp
  | cons b l ih =>
    rw [List.flatten_cons] at hl hnd hrn
    have hb : ∀ i ∈ b, i < n ∧ ie i = none := fun i hi => hl i (List.mem_append.mpr (Or.inl hi))
    have hnd' : ((s.resolved ++ b) ++ l.flatten).Nodup := by
      rw [List.append_assoc]
      exact hnd
    have hndb : b.Nodup := (List.nodup_append.mp (List.nodup_append.mp hnd').1).2.1
    have hdisb : ∀ i ∈ b, i ∉ s.resolved ∧ i ∉ s.rejected.map Prod.fst := by
      intro i hi
      refine ⟨fun hm => ?_, by simp [hrj]⟩
      exact List.disjoint_of_nodup_append (List.nodup_append.mp hnd').1 hm hi
    have hfire := foldl_fire_fresh n ie b s (fun i hi => (hb i hi).1) hndb hdisb
    have hf1 : b.filter (fun i => (ie i).isNone) = b := by
      rw [List.filter_eq_self]
      intro i hi
      simp [(hb i hi).2]
    have hf2 : b.filterMap (fun i => (ie i).map (fun e => (i, e))) = [] := by
      rw [List.filterMap_eq_nil_iff]
      intro i hi
      simp [(hb i hi).2]
    rw [hf1, hf2, hrj] at hfire
    have hnot : allFulfilled n (s.resolved ++ b) = false := by
      rw [Bool.eq_false_iff]
      intro h
      apply hrn
      rw [← List.append_assoc]
      exact List.mem_append.mpr (Or.inl ((allFulfilled_iff _ _).mp h r hr))
    simp only [List.foldl]
    rw [turn_waiting n ie s b hx, hfire]
    have hreact : reactions n { s with resolved := s.resolved ++ b, rejected := [] ++ [] } =
        { s with resolved := s.resolved ++ b, rejected := [] } := by
      simp [reactions, hnot]
    rw [hreact, ih]
    · simp [hrj]
    · exact hx
    · rfl
    · exact fun i hi => hl i (List.mem_append.mpr (Or.inr hi))
    · exact hnd'
    · rw [List.append_assoc]
      exact hrn

theorem filterMap_single {β : Type} (f : Nat → Option β) (r : Nat) (y : β) (l : List Nat)
    (hnd : l.Nodup) (hr : r ∈ l) (hfr : f r = some y) (hf : ∀ i ∈ l, i ≠ r → f i = none) :
    l.filterMap f = [y] := by
  induction l with
  | nil => cases hr
  | cons a l ih =>
    obtain ⟨hal, hndl⟩ := List.nodup_cons.mp hnd
    by_cases ha : a = r
    · subst ha
      have : l.filterMap f = [] := by
        rw [List.filterMap_eq_nil_iff]
        intro i hi
        exact hf i (List.mem_cons_of_mem _ hi) (fun h => hal (h ▸ hi))
      rw [List.filterMap_cons_some hfr, this]
    · have hrl : r ∈ l := by
        rcases List.mem_cons.mp hr with h | h
        · exact absurd h.symm ha
        · exact h
      rw [List.filterMap_cons_none (hf a (List.mem_cons_self _ _) ha)]
      exact ih hndl hrl (fun i hi => hf i (List.mem_cons_of_mem _ hi))

/-- The state in which the run ends when only accepted inserts complete in the
turns `before`, and the one rejected insert `r` completes in the turn `t`. -/
theorem foldl_turn_rejected {V : Type} (n : Nat) (ie : Nat → Option String) (r : Nat)
    (err : String) (before after : List (List Nat)) (t : List Nat) (s : St V)
    (hx : s.exit = none) (hs : s.resolved = []) (hrj : s.rejected = []) (hr : r < n)
    (hrt : r ∈ t) (he : ie r = some err)
    (hacc : ∀ i ∈ (before ++ t :: after).flatten, i < n ∧ (i ≠ r → ie i = none))
    (hnd : (before ++ t :: after).flatten.Nodup) :
    (before ++ t :: after).foldl (turn n ie) s =
      { s with
        resolved := before.flatten ++ t.erase r
        rejected := [(r, err)]
        out := s.out ++ [Event.log "", Event.log "An error happened while inserting data",
                         Event.logErr err, Event.exit 1]
        exit := some 1 } := by
  rw [List.flatten_append, List.flatten_cons] at hacc hnd
  have hndb : before.flatten.Nodup := (List.nodup_append.mp hnd).1
  have hndt : t.Nodup := (List.nodup_append.mp (List.nodup_append.mp hnd).2.1).1
  have hdis : ∀ i ∈ before.flatten, i ∉ t := fun i hi hm =>
    List.disjoint_of_nodup_append hnd hi (List.mem_append.mpr (Or.inl hm))
  have hrb : r ∉ before.flatten := fun hm => hdis r hm hrt
  have hb : ∀ i ∈ before.flatten, i < n ∧ ie i = none := fun i hi =>
    ⟨(hacc i (List.mem_append.mpr (Or.inl hi))).1,
      (hacc i (List.mem_append.mpr (Or.inl hi))).2 (fun h => hrb (h ▸ hi))⟩
  have ht : ∀ i ∈ t, i < n ∧ (i ≠ r → ie i = none) := fun i hi =>
    hacc i (List.mem_append.mpr (Or.inr (List.mem_append.mpr (Or.inl hi))))
  rw [List.foldl_append, foldl_turn_accepts n ie r hr before s hx hrj hb
    (by simpa [hs] using hndb) (by simpa [hs] using hrb)]
  simp only [List.foldl]
  rw [turn_waiting n ie { s with resolved := s.resolved ++ before.flatten } t hx]
  rw [foldl_fire_fresh n ie t { s with resolved := s.resolved ++ before.flatten }
    (fun i hi => (ht i hi).1) hndt
    (fun i hi => ⟨by simpa [hs] using fun hm => hdis i hm hi, by simp [hrj]⟩)]
  have hf1 : t.filter (fun i => (ie i).isNone) = t.erase r := by
    rw [hndt.erase_eq_filter]
    apply List.filter_congr
    intro i hi
    by_cases hir : i = r
    · simp [hir, he]
    · simp [hir, (ht i hi).2 hir]
  have hf2 : t.filterMap (fun i => (ie i).map (fun e => (i, e))) = [(r, err)] :=
    filterMap_single _ r (r, err) t hndt hrt (by simp [he])
      (fun i hi hir => by simp [(ht i hi).2 hir])
  rw [hf1, hf2, hrj, hs]
  have hreact : reactions n
      { s with resolved := [] ++ before.flatten ++ t.erase r, rejected := [] ++ [(r, err)] } =
      { s with
        resolved := before.flatten ++ t.erase r
        rejected := [(r, err)]
        out := s.out ++ [Event.log "", Event.log "An error happened while inserting data",
                         Event.logErr err, Event.exit 1]
        exit := some 1 } := by
    simp [reactions]
  rw [hreact, foldl_turn_exited n ie after _ (by rfl)]

/-- C8, as stated, fails: of three inserts the target rejects exactly one, the
second, whose callback fires first; the run exits with 1 at once, with no
insert acknowledged (not `3 - 1`) and the other two still in flight. -/
theorem rejection_first_exits_with_inserts_in_flight :
    (∀ i, i < 3 → ((envRejectedFirst.insertErr i).isSome = true ↔ i = 1)) ∧
      envRejectedFirst.order.flatten.Perm (List.range 3) ∧
      (run optsFalse envRejectedFirst).exit = some 1 ∧
      (run optsFalse envRejectedFirst).resolved = [] ∧
      inFlight 3 (run optsFalse envRejectedFirst) = [0, 2] ∧
      (run optsFalse envRejectedFirst).resolved.length ≠ 3 - 1 := by
  decide

/-- C8, amended: when the target rejects exactly one of the `N` inserts, `r`,
then for every completion order, given as the turns `before`, the turn `t` in
which the callback of `r` fires and the turns `after`, the run exits with 1 at
the end of turn `t` without waiting for the others: the inserts acknowledged
at exit are exactly those of the turns `before` and the other ones of turn `t`,
the inserts of the turns `after` are still in flight, and acknowledged, in
flight and the rejected one add up to `N`. -/
theorem single_rejection_exits_at_its_turn {V : Type} (p : Program) (env : Env V)
    (N r : Nat) (before after : List (List Nat)) (t : List Nat)
    (hv : valid p = true) (hc : env.connectErr = none) (hl : env.loadErr = none)
    (hN : env.data.length = N) (hr : r < N)
    (hrej : ∀ i, i < N → ((env.insertErr i).isSome = true ↔ i = r))
    (ho : env.order = before ++ t :: after) (hrt : r ∈ t)
    (hperm : env.order.flatten.Perm (List.range N)) :
    (run p env).exit = some 1 ∧
      (run p env).rejected.map Prod.fst = [r] ∧
      (run p env).resolved = before.flatten ++ t.erase r ∧
      (∀ i, i ∈ inFlight N (run p env) ↔ i ∈ after.flatten) ∧
      (run p env).resolved.length + (inFlight N (run p env)).length + 1 = N := by
  subst hN
  have hd : env.data ≠ [] := by
    intro h
    rw [h] at hr
    cases hr
  have hmem : ∀ i, i ∈ env.order.flatten ↔ i < env.data.length := fun i => by
    rw [hperm.mem_iff, List.mem_range]
  have hnd : env.order.flatten.Nodup := hperm.nodup_iff.mpr (List.nodup_range _)
  have hlen : env.order.flatten.length = env.data.length := by
    rw [hperm.length_eq, List.length_range]
  rw [ho] at hmem hnd hlen
  have hacc : ∀ i ∈ (before ++ t :: after).flatten,
      i < env.data.length ∧ (i ≠ r → env.insertErr i = none) := by
    intro i hi
    have hlt := (hmem i).mp hi
    refine ⟨hlt, fun hne => ?_⟩
    have := (hrej i hlt).not.mpr hne
    simpa using this
  obtain ⟨err, he⟩ := Option.isSome_iff_exists.mp ((hrej r hr).mpr rfl)
  have hrun : run p env =
      { waiting p env with
        resolved := before.flatten ++ t.erase r
        rejected := [(r, err)]
        out := (waiting p env).out ++
          [Event.log "", Event.log "An error happened while inserting data",
           Event.logErr err, Event.exit 1]
        exit := some 1 } := by
    rw [run_pass p env hv hc hl hd, ho]
    exact foldl_turn_rejected _ _ r err before after t (waiting p env) rfl rfl rfl hr hrt he
      hacc hnd
  rw [List.flatten_append, List.flatten_cons] at hmem hnd hlen
  have hndt : t.Nodup := (List.nodup_append.mp (List.nodup_append.mp hnd).2.1).1
  have hnda : after.flatten.Nodup := (List.nodup_append.mp (List.nodup_append.mp hnd).2.1).2.1
  have hdis1 := List.disjoint_of_nodup_append hnd
  have hdis2 := List.disjoint_of_nodup_append (List.nodup_append.mp hnd).2.1
  have hfl : ∀ i, i ∈ inFlight env.data.length (run p env) ↔ i ∈ after.flatten := by
    intro i
    rw [hrun]
    simp only [inFlight, List.mem_filter, List.mem_range, Bool.and_eq_true, decide_eq_true_eq,
      List.map_cons, List.map_nil, List.mem_singleton, List.mem_append, not_or,
      hndt.mem_erase_iff]
    constructor
    · rintro ⟨hlt, ⟨hnb, hnt⟩, hnr⟩
      rcases List.mem_append.mp ((hmem i).mpr hlt) with h | h
      · exact absurd h hnb
      · rcases List.mem_append.mp h with h | h
        · exact absurd ⟨hnr, h⟩ hnt
        · exact h
    · intro hi
      refine ⟨(hmem i).mp (by simp [hi]), ⟨fun hm => ?_, fun hm => ?_⟩, fun h => ?_⟩
      · exact hdis1 hm (List.mem_append.mpr (Or.inr hi))
      · exact hdis2 hm.2 hi
      · exact hdis2 hrt (h ▸ hi)
  refine ⟨by rw [hrun], by rw [hrun]; rfl, by rw [hrun], hfl, ?_⟩
  have hperm2 : (inFlight env.data.length (run p env)).Perm after.flatten := by
    rw [List.perm_ext_iff_of_nodup]
    · exact hfl
    · exact List.Nodup.filter _ (List.nodup_range _)
    · exact hnda
  have hte : (t.erase r).length + 1 = t.length := by
    rw [List.length_erase_of_mem hrt]
    have := List.length_pos_of_mem hrt
    omega
  rw [hperm2.length_eq, ← hlen, hrun]
  simp only [List.length_append]
  omega

theorem single_rejection_exits_at_its_turn_witness :
    (valid optsFalse = true ∧ envRejectSecond.connectErr = none ∧
        envRejectSecond.loadErr = none ∧ envRejectSecond.data.length = 3 ∧ 1 < 3 ∧
        (∀ i, i < 3 → ((envRejectSecond.insertErr i).isSome = true ↔ i = 1)) ∧
        envRejectSecond.order = [] ++ [1, 0] :: [[2]] ∧ 1 ∈ [1, 0] ∧
        envRejectSecond.order.flatten.Perm (List.range 3)) ∧
      (run optsFalse envRejectSecond).resolved = [0] ∧
      inFlight 3 (run optsFalse envRejectSecond) = [2] ∧
      ((run optsFalse envRejectSecond).exit = some 1 ∧
        (run optsFalse envRejectSecond).rejected.map Prod.fst = [1] ∧
        (run optsFalse envRejectSecond).resolved = ([] : List (List Nat)).flatten ++ [1, 0].erase 1 ∧
        (∀ i, i ∈ inFlight 3 (run optsFalse envRejectSecond) ↔ i ∈ [[2]].flatten) ∧
        (run optsFalse envRejectSecond).resolved.length +
          (inFlight 3 (run optsFalse envRejectSecond)).length + 1 = 3) :=
  ⟨by decide, by decide, by decide,
    single_rejection_exits_at_its_turn optsFalse envRejectSecond 3 1 [] [[2]] [1, 0]
      (by decide) rfl rfl rfl (by decide) (by decide) rfl (by decide) (by decide)⟩

end Transfer
